import Mathlib

/-!
Shallow embedding of the prediction preprocessing and inference pipeline of the
student-performance dashboard (sources: src/web_app.py `WebModelHandler`,
`show_batch_analysis`, `get_recommendations`; src/gui/analytics_window.py
`AnalyticsWindow`; src/gui/prediction_window.py `PredictionWindow`).

Conventions of the embedding:
* a pandas cell value is modelled by `Value` (integers and strings cover every
  attribute of the data model);
* a dataframe row is an association list `Row` from column name to value; a
  dataframe is a `List Row` (all per-row operations of the source are
  column-wise and element-wise, so the frame-level code is the row-wise code
  mapped over the rows);
* Python exceptions are modelled by `Option`: a function returns `none`
  exactly when the corresponding source code raises;
* class probabilities and confidences are modelled by `ℚ`.
-/

/-- A pandas cell value: the student attributes are integers (ordinal scales,
counts, grades) or categorical strings. -/
inductive Value where
  | int (n : Int)
  | str (s : String)
deriving DecidableEq, BEq

/-- Python `str(x)` as applied by `processed_df[column].astype(str)`
(src/web_app.py line 90): integers render in decimal, strings are unchanged. -/
def Value.pyStr : Value → String
  | .int n => toString n
  | .str s => s

/-- A dataframe row: an association list from column name to cell value. -/
abbrev Row := List (String × Value)

/-- First value stored under column `c`, if any (pandas column access). -/
def Row.findVal (r : Row) (c : String) : Option Value :=
  match r with
  | [] => none
  | (c', v) :: rest => if c' = c then some v else Row.findVal rest c

/-- Whether column `c` is present (`column in processed_df.columns`). -/
def Row.hasCol (r : Row) (c : String) : Bool :=
  match r with
  | [] => false
  | (c', _) :: rest => c' = c || Row.hasCol rest c

/-- Column assignment `processed_df[c] = v`: replaces the column in place when
present, otherwise appends it as a new last column. -/
def Row.set (r : Row) (c : String) (v : Value) : Row :=
  if r.hasCol c then r.map (fun p => if p.1 = c then (c, v) else p)
  else r ++ [(c, v)]

/-- A fitted `sklearn.preprocessing.LabelEncoder` as stored in
models/label_encoders.joblib: its `classes_` vocabulary, in stored order. -/
structure Encoder where
  classes : List String
deriving DecidableEq

/-- Index of the first occurrence of `s` in a vocabulary list. -/
def indexIn (s : String) : List String → Option Nat
  | [] => none
  | c :: rest => if c = s then some 0 else (indexIn s rest).map (· + 1)

/-- `encoder.transform([s])`: the integer code of `s` in `classes_`;
`none` models the `ValueError` sklearn raises on an unseen label. -/
def Encoder.transform (e : Encoder) (s : String) : Option Nat :=
  indexIn s e.classes

/-- One cell of the encoding step (src/web_app.py lines 90-95): coerce to
string, substitute the first stored category when the string is not a known
category, then transform. `none` models the `IndexError` of
`encoder.classes_[0]` on an empty vocabulary. -/
def encodeCell (e : Encoder) (v : Value) : Option Nat :=
  let s := Value.pyStr v
  if s ∈ e.classes then e.transform s
  else (e.classes.head?).bind e.transform

/-- The encoder loop of `preprocess_data` (src/web_app.py lines 88-95) applied
to one row: for each `(column, encoder)` pair, when the column is present its
value is replaced by its integer code. -/
def encodeRow (encs : List (String × Encoder)) (r : Row) : Option Row :=
  match encs with
  | [] => some r
  | (c, e) :: rest =>
    match Row.findVal r c with
    | none => encodeRow rest r
    | some v =>
      match encodeCell e v with
      | none => none
      | some k => encodeRow rest (Row.set r c (.int k))

/-- The fill loop of `preprocess_data` (src/web_app.py lines 97-99): every
expected feature absent from the row is appended with default value 0. -/
def fillMissing (fs : List String) (r : Row) : Row :=
  match fs with
  | [] => r
  | f :: rest => fillMissing rest (if r.hasCol f then r else Row.set r f (.int 0))

/-- The final selection `processed_df[self.feature_names]`
(src/web_app.py line 101): take exactly the expected features, in that order;
`none` models the `KeyError` pandas raises on a missing column. -/
def selectRow (fs : List String) (r : Row) : Option Row :=
  match fs with
  | [] => some []
  | f :: rest =>
    match Row.findVal r f with
    | none => none
    | some v => (selectRow rest r).map ((f, v) :: ·)

/-- `WebModelHandler.preprocess_data` (src/web_app.py lines 85-101) restricted
to a single row: encode, fill missing expected features with 0, then select
the expected features in stored order. -/
def preprocessRow (encs : List (String × Encoder)) (fs : List String) (r : Row) :
    Option Row :=
  (encodeRow encs r).bind fun r1 => selectRow fs (fillMissing fs r1)

/-- Exception-propagating map over a list: `none` as soon as one element
raises, mirroring a Python loop over rows. -/
def mapOpt (f : α → Option β) : List α → Option (List β)
  | [] => some []
  | a :: l =>
    match f a with
    | none => none
    | some b => (mapOpt f l).map (b :: ·)

/-- `WebModelHandler.preprocess_data` (src/web_app.py lines 85-101) on a whole
frame, with the handler's artifact fields as they stand after `load_models`:
`none` for `label_encoders` models the `AttributeError` of
`None.items()` raised before any row is touched, and `none` for
`feature_names` models the `TypeError` of iterating `None` raised after the
encoder loop. -/
def preprocess_data (label_encoders : Option (List (String × Encoder)))
    (feature_names : Option (List String)) (rows : List Row) : Option (List Row) :=
  match label_encoders with
  | none => none
  | some encs =>
    match mapOpt (encodeRow encs) rows with
    | none => none
    | some encoded =>
      match feature_names with
      | none => none
      | some fs => mapOpt (fun r => selectRow fs (fillMissing fs r)) encoded

/-- Modelled from the spec: the classifier artifact is external to the
repository (loaded from models/student_performance_model.joblib; the training
code is not in the repository). Spec section 6 gives its contract: `predict`
and `predict_proba` act on a batch row-aligned with the input, so they are
modelled as per-row functions mapped over the batch. `none` models the
classifier raising on a vector it rejects. -/
structure Classifier where
  predictOne : Row → Option Int
  probaOne : Row → Option (List ℚ)

/-- Python `max(xs)` on a list of probabilities: `none` models the
`ValueError` raised on an empty sequence (`np.max` likewise raises). -/
def pymax : List ℚ → Option ℚ
  | [] => none
  | q :: qs => some (qs.foldl max q)

/-- `WebModelHandler.predict_single` (src/web_app.py lines 103-108):
preprocess the one-row frame, take `predict(...)[0]` and
`predict_proba(...)[0]`, and report `max(prediction_proba)` as confidence. -/
def predict_single (m : Classifier) (label_encoders : Option (List (String × Encoder)))
    (feature_names : Option (List String)) (r : Row) : Option (Int × ℚ) :=
  (preprocess_data label_encoders feature_names [r]).bind fun processed =>
    (mapOpt m.predictOne processed).bind fun preds =>
      preds.head?.bind fun prediction =>
        (mapOpt m.probaOne processed).bind fun probas =>
          probas.head?.bind fun prediction_proba =>
            (pymax prediction_proba).map fun confidence => (prediction, confidence)

/-- `WebModelHandler.predict_batch` (src/web_app.py lines 110-115):
preprocess the frame, predict the whole batch, and take the row-wise maximum
of the probability matrix as the confidence vector. -/
def predict_batch (m : Classifier) (label_encoders : Option (List (String × Encoder)))
    (feature_names : Option (List String)) (rows : List Row) :
    Option (List Int × List ℚ) :=
  (preprocess_data label_encoders feature_names rows).bind fun processed =>
    (mapOpt m.predictOne processed).bind fun predictions =>
      (mapOpt m.probaOne processed).bind fun prediction_probas =>
        (mapOpt pymax prediction_probas).map fun confidences =>
          (predictions, confidences)

/-- One row through the whole pipeline: preprocess, predict, take the maximum
class probability. Helper used to compare batch and single prediction. -/
def pipelineRow (m : Classifier) (encs : List (String × Encoder))
    (fs : List String) (r : Row) : Option (Int × ℚ) :=
  (preprocessRow encs fs r).bind fun fv =>
    (m.predictOne fv).bind fun p =>
      (m.probaOne fv).bind fun probs =>
        (pymax probs).map fun c => (p, c)

/-- Python division, `a / b`: `none` models the `ZeroDivisionError` raised on
a zero divisor (for numpy scalar operands the same expression silently
produces a non-number instead of a quotient, which `none` covers as well). -/
def pyDiv (a b : ℚ) : Option ℚ :=
  if b = 0 then none else some (a / b)

/-- The summary-rate computation of `show_batch_analysis`
(src/web_app.py lines 356-365): `good_performance = sum(predictions)`,
`needs_support = len(predictions) - good_performance`, and the two displayed
percentages `good_performance/len(predictions)*100` and
`needs_support/len(predictions)*100`. -/
def summary_rates (predictions : List Int) : Option (ℚ × ℚ) :=
  let good_performance : Int := predictions.sum
  let needs_support : Int := (predictions.length : Int) - good_performance
  (pyDiv (good_performance : ℚ) (predictions.length : ℚ)).bind fun g =>
    (pyDiv (needs_support : ℚ) (predictions.length : ℚ)).map fun n =>
      (g * 100, n * 100)

/-- The performance-rate computation of `AnalyticsWindow.generate_insights`
(src/gui/analytics_window.py line 311):
`sum(self.predictions) / len(self.predictions) * 100`. -/
def generate_insights_rate (predictions : List Int) : Option ℚ :=
  (pyDiv (predictions.sum : ℚ) (predictions.length : ℚ)).map (· * 100)

/-- High-risk filter (src/web_app.py line 425, src/gui/analytics_window.py
lines 499-502): predicted class 0 and confidence strictly above 0.7. Rows are
reduced to their (Predicted_Performance, Confidence) columns, the only ones
the filters read. -/
def highRisk (rows : List (Int × ℚ)) : List (Int × ℚ) :=
  rows.filter fun x => x.1 == 0 && decide ((7 : ℚ)/10 < x.2)

/-- Medium-risk filter (src/web_app.py line 426, src/gui/analytics_window.py
lines 504-507): predicted class 0 and confidence at most 0.7. -/
def mediumRisk (rows : List (Int × ℚ)) : List (Int × ℚ) :=
  rows.filter fun x => x.1 == 0 && decide (x.2 ≤ (7 : ℚ)/10)

/-- Low-confidence filter (src/web_app.py line 427, src/gui/analytics_window.py
line 509): confidence strictly below 0.6, independent of predicted class. -/
def lowConfidence (rows : List (Int × ℚ)) : List (Int × ℚ) :=
  rows.filter fun x => decide (x.2 < (6 : ℚ)/10)

/-- Recommendation string of the study-time rule (src/web_app.py line 633). -/
def recStudy : String := "Increase weekly study time to improve academic performance"

/-- Recommendation string of the past-failures rule (src/web_app.py line 635). -/
def recTutor : String := "Consider additional tutoring to address past academic challenges"

/-- Recommendation string of the absences rule (src/web_app.py line 637). -/
def recAttend : String := "Improve attendance to better engage with course material"

/-- Recommendation string of the school-support rule (src/web_app.py line 639). -/
def recSchoolSup : String := "Consider enrolling in school support programs"

/-- Recommendation string of the family-support rule (src/web_app.py line 641). -/
def recFamSup : String := "Encourage family involvement in academic activities"

/-- First unconditional good-performance recommendation (src/web_app.py line 643). -/
def recKeepHabits : String := "Continue current study habits and maintain good attendance"

/-- Second unconditional good-performance recommendation (src/web_app.py line 644). -/
def recLeadership : String := "Consider taking on leadership roles or advanced courses"

/-- Higher-education recommendation (src/web_app.py line 646). -/
def recHigherEd : String := "Start preparing for higher education applications"

/-- Last unconditional good-performance recommendation (src/web_app.py line 647). -/
def recBalance : String := "Maintain a healthy balance between academics and social activities"

/-- Generic fallback recommendation (src/web_app.py line 650). -/
def recFallback : String := "Continue monitoring academic progress regularly"

/-- Python `a < b` where `a` is a cell value and `b` an integer: `none`
models the `TypeError` of comparing a string with an integer. -/
def pyLtInt (v : Value) (k : Int) : Option Bool :=
  match v with
  | .int n => some (decide (n < k))
  | .str _ => none

/-- Python `a > b` where `a` is a cell value and `b` an integer: `none`
models the `TypeError` of comparing a string with an integer. -/
def pyGtInt (v : Value) (k : Int) : Option Bool :=
  match v with
  | .int n => some (decide (k < n))
  | .str _ => none

/-- Python `dict.get(key, default)`. -/
def dictGet (r : Row) (c : String) (d : Value) : Value :=
  (Row.findVal r c).getD d

namespace WebApp

/-- `get_recommendations` of the web front-end (src/web_app.py lines
627-652): rule list keyed off predicted class; every applicable rule appends
its string in source order; a generic fallback is appended when the list is
still empty. -/
def get_recommendations (prediction : Int) (student_data : Row) :
    Option (List String) :=
  (if prediction = 0 then
    (pyLtInt (dictGet student_data "studytime" (.int 0)) 3).bind fun b1 =>
      (pyGtInt (dictGet student_data "failures" (.int 0)) 0).bind fun b2 =>
        (pyGtInt (dictGet student_data "absences" (.int 0)) 10).bind fun b3 =>
          let b4 := dictGet student_data "schoolsup" (.str "") = Value.str "no"
          let b5 := dictGet student_data "famsup" (.str "") = Value.str "no"
          some ((if b1 then [recStudy] else []) ++
            (if b2 then [recTutor] else []) ++
            (if b3 then [recAttend] else []) ++
            (if b4 then [recSchoolSup] else []) ++
            (if b5 then [recFamSup] else []))
  else
    some ([recKeepHabits, recLeadership] ++
      (if dictGet student_data "higher" (.str "") = Value.str "yes"
        then [recHigherEd] else []) ++
      [recBalance])).map fun recommendations =>
    if recommendations = [] then [recFallback] else recommendations

end WebApp

namespace PredictionWindow

/-- `PredictionWindow.get_recommendations` of the desktop front-end
(src/gui/prediction_window.py lines 483-508): same rule table as the web
front-end, translated independently from its own source. -/
def get_recommendations (prediction : Int) (student_data : Row) :
    Option (List String) :=
  (if prediction = 0 then
    (pyLtInt (dictGet student_data "studytime" (.int 0)) 3).bind fun b1 =>
      (pyGtInt (dictGet student_data "failures" (.int 0)) 0).bind fun b2 =>
        (pyGtInt (dictGet student_data "absences" (.int 0)) 10).bind fun b3 =>
          let b4 := dictGet student_data "schoolsup" (.str "") = Value.str "no"
          let b5 := dictGet student_data "famsup" (.str "") = Value.str "no"
          some ((if b1 then [recStudy] else []) ++
            (if b2 then [recTutor] else []) ++
            (if b3 then [recAttend] else []) ++
            (if b4 then [recSchoolSup] else []) ++
            (if b5 then [recFamSup] else []))
  else
    some ([recKeepHabits, recLeadership] ++
      (if dictGet student_data "higher" (.str "") = Value.str "yes"
        then [recHigherEd] else []) ++
      [recBalance])).map fun recommendations =>
    if recommendations = [] then [recFallback] else recommendations

end PredictionWindow

/-- Concrete two-class classifier used to evaluate the theorems on explicit
inputs: accepts every vector, predicts class 0 with probabilities
[1/4, 3/4]. -/
def m0 : Classifier where
  predictOne := fun _ => some 0
  probaOne := fun _ => some [1/4, 3/4]

/-- Concrete classifier that rejects every preprocessed vector except the
single well-formed one `[("x", 1)]`, mimicking an artifact that raises on a
malformed vector. -/
def m1 : Classifier where
  predictOne := fun fv => if fv = [("x", Value.int 1)] then some 1 else none
  probaOne := fun fv => if fv = [("x", Value.int 1)] then some [1] else none

/-- Concrete input row for the witnesses. -/
def row0 : Row := [("x", Value.int 1)]

/-- Concrete malformed input row: its preprocessed vector `[("x", 7)]` is
rejected by `m1`. -/
def rowBad : Row := [("x", Value.int 7)]

/-- Concrete encoder mapping for witnesses: one encoder on column famsup. -/
def encsW : List (String × Encoder) := [("famsup", ⟨["no", "yes"]⟩)]

/-- Concrete expected-feature list for witnesses. -/
def fsW : List String := ["famsup", "age", "studytime"]

/-- Concrete input row for witnesses: carries an unknown category for famsup,
misses the expected feature studytime, and carries an extra column. -/
def rowW : Row :=
  [("age", Value.int 17), ("famsup", Value.str "maybe"), ("extra", Value.int 9)]

/-- The preprocessed vector of `rowW` under `encsW`/`fsW`. -/
def outW : Row :=
  [("famsup", Value.int 0), ("age", Value.int 17), ("studytime", Value.int 0)]

/-- Concrete encoder for the encoding-fallback witness. -/
def encW : Encoder := ⟨["no", "yes"]⟩

/-- Concrete student record for the recommendation witness: low study time,
no family support. -/
def sdW : Row := [("studytime", Value.int 2), ("famsup", Value.str "no")]

/-- Concrete student record for the good-performance half of the
recommendation witness: aims at higher education. -/
def sdW1 : Row := [("higher", Value.str "yes")]

/-! ### Helper lemmas about rows -/

theorem Row.findVal_eq_none_iff {r : Row} {c : String} :
    Row.findVal r c = none ↔ Row.hasCol r c = false := by
  induction r with
  | nil => simp [Row.findVal, Row.hasCol]
  | cons p rest ih =>
    obtain ⟨c', v⟩ := p
    by_cases h : c' = c <;> simp [Row.findVal, Row.hasCol, h, ih]

theorem Row.hasCol_of_findVal {r : Row} {c : String} {v : Value}
    (h : Row.findVal r c = some v) : Row.hasCol r c = true := by
  by_contra hc
  have : Row.findVal r c = none := Row.findVal_eq_none_iff.mpr (by
    cases hh : Row.hasCol r c
    · rfl
    · exact absurd hh (by simpa using hc))
  simp [this] at h

theorem Row.hasCol_append {r l : Row} {c : String} :
    Row.hasCol (r ++ l) c = (Row.hasCol r c || Row.hasCol l c) := by
  induction r with
  | nil => simp [Row.hasCol]
  | cons p rest ih => simp [Row.hasCol, ih, Bool.or_assoc]

theorem Row.findVal_append_left {r l : Row} {c : String}
    (h : Row.hasCol r c = true) :
    Row.findVal (r ++ l) c = Row.findVal r c := by
  induction r with
  | nil => simp [Row.hasCol] at h
  | cons p rest ih =>
    obtain ⟨c', v⟩ := p
    by_cases hc : c' = c
    · simp [Row.findVal, hc]
    · simp [Row.hasCol, hc] at h
      simp [Row.findVal, hc, ih h]

theorem Row.findVal_append_right {r l : Row} {c : String}
    (h : Row.hasCol r c = false) :
    Row.findVal (r ++ l) c = Row.findVal l c := by
  induction r with
  | nil => simp [Row.findVal]
  | cons p rest ih =>
    obtain ⟨c', v⟩ := p
    simp [Row.hasCol] at h
    simp [Row.findVal, h.1, ih h.2]

theorem Row.hasCol_setmap {r : Row} {c d : String} {v : Value} :
    Row.hasCol (r.map fun p => if p.1 = c then (c, v) else p) d
      = Row.hasCol r d := by
  induction r with
  | nil => simp [Row.hasCol]
  | cons p rest ih =>
    obtain ⟨c', v'⟩ := p
    simp only [List.map_cons]
    by_cases h : c' = c
    · rw [if_pos (by simpa using h)]
      subst h
      simp [Row.hasCol, ih]
    · rw [if_neg (by simpa using h)]
      simp [Row.hasCol, ih]

theorem Row.hasCol_set {r : Row} {c d : String} {v : Value} :
    Row.hasCol (Row.set r c v) d = (Row.hasCol r d || decide (c = d)) := by
  unfold Row.set
  by_cases h : Row.hasCol r c
  · rw [if_pos h, Row.hasCol_setmap]
    by_cases hcd : c = d
    · subst hcd
      simp [h]
    · simp [hcd]
  · rw [if_neg h, Row.hasCol_append]
    simp [Row.hasCol]

theorem Row.set_of_not_hasCol {r : Row} {c : String} {v : Value}
    (h : Row.hasCol r c = false) : Row.set r c v = r ++ [(c, v)] := by
  simp [Row.set, h]

/-! ### Helper lemmas about the preprocessing stages -/

theorem encodeRow_hasCol {encs : List (String × Encoder)} {r r' : Row}
    (h : encodeRow encs r = some r') (d : String) :
    Row.hasCol r' d = Row.hasCol r d := by
  induction encs generalizing r with
  | nil =>
    simp [encodeRow] at h
    subst h; rfl
  | cons ce rest ih =>
    obtain ⟨c, e⟩ := ce
    cases hv : Row.findVal r c with
    | none =>
      simp only [encodeRow, hv] at h
      exact ih h
    | some v =>
      cases hk : encodeCell e v with
      | none => simp [encodeRow, hv, hk] at h
      | some k =>
        simp only [encodeRow, hv, hk] at h
        have := ih h
        rw [this, Row.hasCol_set]
        by_cases hcd : c = d
        · subst hcd
          simp [Row.hasCol_of_findVal hv]
        · simp [hcd]

theorem fillMissing_findVal_of_hasCol {fs : List String} {r : Row} {d : String}
    (h : Row.hasCol r d = true) :
    Row.findVal (fillMissing fs r) d = Row.findVal r d := by
  induction fs generalizing r with
  | nil => rfl
  | cons f rest ih =>
    simp only [fillMissing]
    by_cases hf : Row.hasCol r f
    · rw [if_pos hf]
      exact ih h
    · rw [if_neg hf, Row.set_of_not_hasCol (by simpa using hf)]
      rw [ih (by rw [Row.hasCol_append]; simp [h])]
      exact Row.findVal_append_left h

theorem fillMissing_findVal_of_absent {fs : List String} {r : Row} {d : String}
    (h : Row.hasCol r d = false) (hmem : d ∈ fs) :
    Row.findVal (fillMissing fs r) d = some (Value.int 0) := by
  induction fs generalizing r with
  | nil => simp at hmem
  | cons f rest ih =>
    simp only [fillMissing]
    by_cases hf : Row.hasCol r f
    · rw [if_pos hf]
      have hne : d ≠ f := fun hdf => by rw [hdf] at h; rw [hf] at h; simp at h
      exact ih h (by
        rcases List.mem_cons.mp hmem with h1 | h1
        · exact absurd h1 hne
        · exact h1)
    · rw [if_neg hf, Row.set_of_not_hasCol (by simpa using hf)]
      by_cases hdf : d = f
      · subst hdf
        have hpresent : Row.hasCol (r ++ [(d, Value.int 0)]) d = true := by
          rw [Row.hasCol_append]; simp [Row.hasCol]
        rw [fillMissing_findVal_of_hasCol hpresent, Row.findVal_append_right h]
        simp [Row.findVal]
      · have habs : Row.hasCol (r ++ [(f, Value.int 0)]) d = false := by
          rw [Row.hasCol_append]
          simp [Row.hasCol, h]
          exact fun hfd => absurd hfd.symm hdf
        exact ih habs (by
          rcases List.mem_cons.mp hmem with h1 | h1
          · exact absurd h1 hdf
          · exact h1)

theorem selectRow_map_fst {fs : List String} {r : Row} {out : Row}
    (h : selectRow fs r = some out) : out.map Prod.fst = fs := by
  induction fs generalizing out with
  | nil =>
    simp [selectRow] at h
    subst h; rfl
  | cons f rest ih =>
    simp only [selectRow] at h
    cases hv : Row.findVal r f with
    | none => rw [hv] at h; simp at h
    | some v =>
      rw [hv] at h
      cases hs : selectRow rest r with
      | none => rw [hs] at h; simp at h
      | some out' =>
        rw [hs] at h
        simp at h
        subst h
        simp [ih hs]

theorem selectRow_get {fs : List String} {r : Row} {out : Row}
    (h : selectRow fs r = some out) :
    ∀ i (hi : i < fs.length) (ho : i < out.length),
      out.get ⟨i, ho⟩ = (fs.get ⟨i, hi⟩, (out.get ⟨i, ho⟩).2) ∧
        Row.findVal r (fs.get ⟨i, hi⟩) = some ((out.get ⟨i, ho⟩).2) := by
  induction fs generalizing out with
  | nil => intro i hi; simp at hi
  | cons f rest ih =>
    simp only [selectRow] at h
    cases hv : Row.findVal r f with
    | none => rw [hv] at h; simp at h
    | some v =>
      rw [hv] at h
      cases hs : selectRow rest r with
      | none => rw [hs] at h; simp at h
      | some out' =>
        rw [hs] at h
        simp at h
        subst h
        intro i hi ho
        cases i with
        | zero => exact ⟨rfl, by simpa using hv⟩
        | succ n =>
          simp only [List.get_cons_succ]
          exact ih hs n (by simpa using hi) (by simpa using ho)

/-! ### Helper lemmas about exception-propagating maps -/

theorem mapOpt_length {f : α → Option β} {l : List α} {l' : List β}
    (h : mapOpt f l = some l') : l'.length = l.length := by
  induction l generalizing l' with
  | nil => simp [mapOpt] at h; subst h; rfl
  | cons a rest ih =>
    cases hf : f a with
    | none => simp [mapOpt, hf] at h
    | some b =>
      cases hr : mapOpt f rest with
      | none => simp [mapOpt, hf, hr] at h
      | some bs =>
        simp [mapOpt, hf, hr] at h
        subst h
        simp [ih hr]

theorem mapOpt_get {f : α → Option β} {l : List α} {l' : List β}
    (h : mapOpt f l = some l') :
    ∀ i (hi : i < l.length) (ho : i < l'.length),
      f (l.get ⟨i, hi⟩) = some (l'.get ⟨i, ho⟩) := by
  induction l generalizing l' with
  | nil => intro i hi; simp at hi
  | cons a rest ih =>
    cases hf : f a with
    | none => simp [mapOpt, hf] at h
    | some b =>
      cases hr : mapOpt f rest with
      | none => simp [mapOpt, hf, hr] at h
      | some bs =>
        simp [mapOpt, hf, hr] at h
        subst h
        intro i hi ho
        cases i with
        | zero => simpa using hf
        | succ n =>
          simp only [List.get_cons_succ]
          exact ih hr n (by simpa using hi) (by simpa using ho)

theorem mapOpt_of_forall_some {f : α → Option β} {g : α → β} {l : List α}
    (h : ∀ a, f a = some (g a)) : mapOpt f l = some (l.map g) := by
  induction l with
  | nil => rfl
  | cons a rest ih => simp [mapOpt, h a, ih]

theorem mapOpt_bind_mapOpt {f : α → Option β} {g : β → Option γ} (l : List α) :
    (mapOpt f l).bind (fun l2 => mapOpt g l2)
      = mapOpt (fun a => (f a).bind g) l := by
  induction l with
  | nil => rfl
  | cons a rest ih =>
    cases hf : f a with
    | none => simp [mapOpt, hf]
    | some b =>
      cases hr : mapOpt f rest with
      | none =>
        rw [hr] at ih
        cases hg : g b with
        | none => simp [mapOpt, hf, hr, hg]
        | some c => simp [mapOpt, hf, hr, hg, ← ih]
      | some bs =>
        rw [hr] at ih
        cases hg : g b with
        | none => simp [mapOpt, hf, hr, hg]
        | some c => simp [mapOpt, hf, hr, hg, ← ih]

theorem mapOpt_none_of_mem {f : α → Option β} {l : List α} {a : α}
    (hmem : a ∈ l) (ha : f a = none) : mapOpt f l = none := by
  induction l with
  | nil => simp at hmem
  | cons b rest ih =>
    rcases List.mem_cons.mp hmem with h1 | h1
    · subst h1
      simp [mapOpt, ha]
    · cases hf : f b with
      | none => simp [mapOpt, hf]
      | some c => simp [mapOpt, hf, ih h1]

/-! ### Helper lemmas about the Python maximum -/

theorem foldl_max_spec (qs : List ℚ) (q : ℚ) :
    (qs.foldl max q = q ∨ qs.foldl max q ∈ qs) ∧
      q ≤ qs.foldl max q ∧ ∀ x ∈ qs, x ≤ qs.foldl max q := by
  induction qs generalizing q with
  | nil => simp
  | cons x rest ih =>
    obtain ⟨hmem, hle, hall⟩ := ih (max q x)
    refine ⟨?_, ?_, ?_⟩
    · simp only [List.foldl_cons]
      rcases hmem with h | h
      · rcases max_choice q x with hm | hm
        · exact Or.inl (h.trans hm)
        · exact Or.inr (by rw [h.trans hm]; exact List.mem_cons_self x rest)
      · exact Or.inr (List.mem_cons_of_mem x h)
    · simp only [List.foldl_cons]
      exact le_trans (le_max_left q x) hle
    · intro y hy
      simp only [List.foldl_cons]
      rcases List.mem_cons.mp hy with h | h
      · subst h
        exact le_trans (le_max_right q y) hle
      · exact hall y h

theorem pymax_mem {l : List ℚ} {m : ℚ} (h : pymax l = some m) : m ∈ l := by
  cases l with
  | nil => simp [pymax] at h
  | cons q qs =>
    simp [pymax] at h
    subst h
    rcases (foldl_max_spec qs q).1 with h1 | h1
    · simp [h1]
    · simp [h1]

theorem pymax_is_max {l : List ℚ} {m : ℚ} (h : pymax l = some m) :
    ∀ x ∈ l, x ≤ m := by
  cases l with
  | nil => simp [pymax] at h
  | cons q qs =>
    simp [pymax] at h
    subst h
    intro x hx
    rcases List.mem_cons.mp hx with h1 | h1
    · subst h1
      exact (foldl_max_spec qs x).2.1
    · exact (foldl_max_spec qs q).2.2 x h1

/-! ### Bridging lemmas between frame-level and row-level pipelines -/

theorem preprocess_data_loaded (encs : List (String × Encoder))
    (fs : List String) (rows : List Row) :
    preprocess_data (some encs) (some fs) rows
      = mapOpt (preprocessRow encs fs) rows := by
  have hsplit : preprocess_data (some encs) (some fs) rows
      = (mapOpt (encodeRow encs) rows).bind
          (fun encoded => mapOpt (fun r => selectRow fs (fillMissing fs r)) encoded) := by
    cases hm : mapOpt (encodeRow encs) rows <;> simp [preprocess_data, hm]
  rw [hsplit, mapOpt_bind_mapOpt]
  rfl

theorem opt_bind_map {o : Option α} {g : α → Option β} {h : β → γ} :
    (o.bind fun x => (g x).map h) = (o.bind g).map h := by
  cases o <;> rfl

theorem mapOpt_pair (u : α → Option β) (v : α → Option γ) (l : List α) :
    (mapOpt u l).bind (fun ps => (mapOpt v l).map fun cs => (ps, cs))
      = (mapOpt (fun a => (u a).bind fun p => (v a).map fun c => (p, c)) l).map
          List.unzip := by
  induction l with
  | nil => rfl
  | cons a rest ih =>
    cases hu : u a with
    | none => simp [mapOpt, hu]
    | some p =>
      cases hv : v a with
      | none =>
        cases hur : mapOpt u rest with
        | none => simp [mapOpt, hu, hv, hur]
        | some ps => simp [mapOpt, hu, hv, hur]
      | some c =>
        cases hur : mapOpt u rest with
        | none =>
          rw [hur] at ih
          cases hw : mapOpt (fun a => (u a).bind fun p => (v a).map fun c => (p, c)) rest with
          | none => simp [mapOpt, hu, hv, hur, hw]
          | some pcs => rw [hw] at ih; exact absurd ih (by simp)
        | some ps =>
          cases hvr : mapOpt v rest with
          | none =>
            rw [hur, hvr] at ih
            cases hw : mapOpt (fun a => (u a).bind fun p => (v a).map fun c => (p, c)) rest with
            | none => simp [mapOpt, hu, hv, hur, hvr, hw]
            | some pcs => rw [hw] at ih; exact absurd ih (by simp)
          | some cs =>
            rw [hur, hvr] at ih
            cases hw : mapOpt (fun a => (u a).bind fun p => (v a).map fun c => (p, c)) rest with
            | none => rw [hw] at ih; exact absurd ih (by simp)
            | some pcs =>
              rw [hw] at ih
              have hih : (ps, cs) = List.unzip pcs := by simpa using ih
              simp [mapOpt, hu, hv, hur, hvr, hw, ← hih]

theorem pipelineRow_eq_pairForm (m : Classifier) (encs : List (String × Encoder))
    (fs : List String) (r : Row) :
    pipelineRow m encs fs r
      = (preprocessRow encs fs r).bind (fun fv =>
          (m.predictOne fv).bind fun p =>
            ((m.probaOne fv).bind pymax).map fun c => (p, c)) := by
  unfold pipelineRow
  exact congrArg (Option.bind _) (funext fun fv =>
    congrArg (Option.bind _) (funext fun p => opt_bind_map))

theorem predict_batch_char (m : Classifier) (encs : List (String × Encoder))
    (fs : List String) (rows : List Row) :
    predict_batch m (some encs) (some fs) rows
      = (mapOpt (pipelineRow m encs fs) rows).map List.unzip := by
  unfold predict_batch
  rw [preprocess_data_loaded]
  have hpost : ∀ processed : List Row,
      ((mapOpt m.predictOne processed).bind fun predictions =>
        (mapOpt m.probaOne processed).bind fun prediction_probas =>
          (mapOpt pymax prediction_probas).map fun confidences =>
            (predictions, confidences))
      = (mapOpt m.predictOne processed).bind (fun predictions =>
          (mapOpt (fun fv => (m.probaOne fv).bind pymax) processed).map
            fun confidences => (predictions, confidences)) := by
    intro processed
    rw [← mapOpt_bind_mapOpt processed]
    cases mapOpt m.predictOne processed with
    | none => rfl
    | some ps =>
      cases mapOpt m.probaOne processed with
      | none => rfl
      | some qss => rfl
  calc (mapOpt (preprocessRow encs fs) rows).bind (fun processed =>
          (mapOpt m.predictOne processed).bind fun predictions =>
            (mapOpt m.probaOne processed).bind fun prediction_probas =>
              (mapOpt pymax prediction_probas).map fun confidences =>
                (predictions, confidences))
      = (mapOpt (preprocessRow encs fs) rows).bind (fun processed =>
          (mapOpt (fun a => (m.predictOne a).bind fun p =>
            ((m.probaOne a).bind pymax).map fun c => (p, c)) processed).map
              List.unzip) := by
        refine congrArg _ (funext fun processed => ?_)
        rw [hpost processed, mapOpt_pair]
    _ = ((mapOpt (preprocessRow encs fs) rows).bind (fun processed =>
          mapOpt (fun a => (m.predictOne a).bind fun p =>
            ((m.probaOne a).bind pymax).map fun c => (p, c)) processed)).map
              List.unzip := opt_bind_map
    _ = (mapOpt (pipelineRow m encs fs) rows).map List.unzip := by
        rw [mapOpt_bind_mapOpt]
        refine congrArg _ (congrArg (fun g => mapOpt g rows)
          (funext fun r => (pipelineRow_eq_pairForm m encs fs r).symm))

theorem predict_single_eq_pipelineRow (m : Classifier)
    (encs : List (String × Encoder)) (fs : List String) (r : Row) :
    predict_single m (some encs) (some fs) r = pipelineRow m encs fs r := by
  unfold predict_single pipelineRow
  rw [preprocess_data_loaded]
  cases hp : preprocessRow encs fs r with
  | none => simp [mapOpt, hp]
  | some fv =>
    cases h1 : m.predictOne fv with
    | none => simp [mapOpt, hp, h1]
    | some p =>
      cases h2 : m.probaOne fv with
      | none => simp [mapOpt, hp, h1, h2]
      | some probs => simp [mapOpt, hp, h1, h2]

theorem indexIn_head {l : List String} (h : l ≠ []) :
    indexIn (l.head h) l = some 0 := by
  cases l with
  | nil => exact absurd rfl h
  | cons c rest => simp [indexIn]

theorem indexIn_isSome_of_mem {s : String} {l : List String} (h : s ∈ l) :
    (indexIn s l).isSome = true := by
  induction l with
  | nil => simp at h
  | cons c rest ih =>
    by_cases hc : c = s
    · simp [indexIn, hc]
    · rcases List.mem_cons.mp h with h1 | h1
      · exact absurd h1.symm hc
      · simp only [indexIn, if_neg hc]
        cases hr : indexIn s rest with
        | none => rw [hr] at ih; simp at ih; exact absurd (ih h1) (by simp)
        | some n => simp

/-! ### Claim theorems -/

/-- Claim C1: for every input row, preprocessing produces a feature vector
whose columns are exactly the stored expected-feature names in that exact
order (so every extra column the row carried is discarded from the output),
and every expected feature absent from the row gets default value 0. -/
theorem C1_preprocess_schema (encs : List (String × Encoder)) (fs : List String)
    (r out : Row) (h : preprocessRow encs fs r = some out) :
    out.map Prod.fst = fs ∧ out.length = fs.length ∧
      ∀ i (hi : i < fs.length) (ho : i < out.length),
        Row.hasCol r (fs.get ⟨i, hi⟩) = false →
          out.get ⟨i, ho⟩ = (fs.get ⟨i, hi⟩, Value.int 0) := by
  unfold preprocessRow at h
  cases he : encodeRow encs r with
  | none => rw [he] at h; simp at h
  | some r1 =>
    rw [he] at h
    simp only [Option.some_bind] at h
    have hfst := selectRow_map_fst h
    have hlen : out.length = fs.length := by
      have hl := congrArg List.length hfst
      simpa using hl
    refine ⟨hfst, hlen, ?_⟩
    intro i hi ho habs
    have habs1 : Row.hasCol r1 (fs.get ⟨i, hi⟩) = false := by
      rw [encodeRow_hasCol he]; exact habs
    have hfill : Row.findVal (fillMissing fs r1) (fs.get ⟨i, hi⟩)
        = some (Value.int 0) :=
      fillMissing_findVal_of_absent habs1 (List.get_mem fs i hi)
    obtain ⟨hpair, hval⟩ := selectRow_get h i hi ho
    rw [hfill] at hval
    have h2 : (out.get ⟨i, ho⟩).2 = Value.int 0 := by
      injection hval with hv
      exact hv.symm
    rw [h2] at hpair
    exact hpair

/-- Witness for C1: the theorem applied to the concrete fixture
`encsW`/`fsW`/`rowW`, whose preprocessed vector is `outW`. -/
theorem C1_preprocess_schema_witness :
    outW.map Prod.fst = fsW ∧ outW.length = fsW.length ∧
      ∀ i (hi : i < fsW.length) (ho : i < outW.length),
        Row.hasCol rowW (fsW.get ⟨i, hi⟩) = false →
          outW.get ⟨i, ho⟩ = (fsW.get ⟨i, hi⟩, Value.int 0) :=
  C1_preprocess_schema encsW fsW rowW outW (by decide)

/-- Claim C2: for every cell with an encoder, a value whose string form is a
known category is mapped to that category's integer code, an unknown value is
mapped to the code of the encoder's first stored category (which is code 0),
and encoding never raises (given the encoder has a first category at all). -/
theorem C2_unknown_fallback (e : Encoder) (v : Value) (hne : e.classes ≠ []) :
    (Value.pyStr v ∈ e.classes → encodeCell e v = e.transform (Value.pyStr v)) ∧
    (Value.pyStr v ∉ e.classes →
      encodeCell e v = e.transform (e.classes.head hne) ∧ encodeCell e v = some 0) ∧
    (encodeCell e v).isSome = true := by
  by_cases hmem : Value.pyStr v ∈ e.classes
  · refine ⟨fun _ => ?_, fun hn => absurd hmem hn, ?_⟩
    · simp [encodeCell, hmem]
    · simp only [encodeCell, if_pos hmem]
      exact indexIn_isSome_of_mem hmem
  · have hcell : encodeCell e v = (e.classes.head?).bind e.transform := by
      simp [encodeCell, hmem]
    have hh : e.classes.head? = some (e.classes.head hne) :=
      List.head?_eq_head hne
    have htr : e.transform (e.classes.head hne) = some 0 := indexIn_head hne
    have hzero : encodeCell e v = some 0 := by
      rw [hcell, hh]
      simpa using htr
    exact ⟨fun hm => absurd hm hmem, fun _ => ⟨hzero.trans htr.symm, hzero⟩,
      by simp [hzero]⟩

/-- Witness for C2: the theorem applied to the concrete encoder `encW` and the
unknown categorical value "maybe". -/
theorem C2_unknown_fallback_witness :
    (Value.pyStr (Value.str "maybe") ∈ encW.classes →
      encodeCell encW (Value.str "maybe")
        = encW.transform (Value.pyStr (Value.str "maybe"))) ∧
    (Value.pyStr (Value.str "maybe") ∉ encW.classes →
      encodeCell encW (Value.str "maybe")
          = encW.transform (encW.classes.head (by decide)) ∧
        encodeCell encW (Value.str "maybe") = some 0) ∧
    (encodeCell encW (Value.str "maybe")).isSome = true :=
  C2_unknown_fallback encW (Value.str "maybe") (by decide)

theorem pipelineRow_inv {m : Classifier} {encs : List (String × Encoder)}
    {fs : List String} {r : Row} {p : Int} {conf : ℚ}
    (h : pipelineRow m encs fs r = some (p, conf)) :
    ∃ fv probs, preprocessRow encs fs r = some fv ∧ m.predictOne fv = some p ∧
      m.probaOne fv = some probs ∧ pymax probs = some conf := by
  unfold pipelineRow at h
  cases hp : preprocessRow encs fs r with
  | none => rw [hp] at h; simp at h
  | some fv =>
    rw [hp] at h
    simp only [Option.some_bind] at h
    cases h1 : m.predictOne fv with
    | none => rw [h1] at h; simp at h
    | some p' =>
      rw [h1] at h
      simp only [Option.some_bind] at h
      cases h2 : m.probaOne fv with
      | none => rw [h2] at h; simp at h
      | some probs =>
        rw [h2] at h
        simp only [Option.some_bind] at h
        cases h3 : pymax probs with
        | none => rw [h3] at h; simp at h
        | some c' =>
          rw [h3] at h
          simp only [Option.map_some'] at h
          have hpc : p' = p ∧ c' = conf := by
            have := h
            simp at this
            exact this
          obtain ⟨hpp, hcc⟩ := hpc
          subst hpp; subst hcc
          exact ⟨fv, probs, rfl, h1, h2, h3⟩


/-- Claim C3: the confidence returned by single and batch prediction equals
the maximum of the classifier's per-class probability vector for that row
(the value `max` selects is a member of and an upper bound of the vector, not
re-normalized), and when the classifier's probabilities lie in [0,1] the
confidence lies in [0,1]. -/
theorem C3_confidence_is_max (m : Classifier) (encs : List (String × Encoder))
    (fs : List String) :
    (∀ r p conf, predict_single m (some encs) (some fs) r = some (p, conf) →
      ∃ fv probs, preprocessRow encs fs r = some fv ∧
        m.probaOne fv = some probs ∧ pymax probs = some conf ∧
        conf ∈ probs ∧ (∀ q ∈ probs, q ≤ conf) ∧
        ((∀ q ∈ probs, 0 ≤ q ∧ q ≤ 1) → 0 ≤ conf ∧ conf ≤ 1)) ∧
    (∀ rows ps cs, predict_batch m (some encs) (some fs) rows = some (ps, cs) →
      ∀ i (hi : i < rows.length) (hci : i < cs.length),
        ∃ fv probs, preprocessRow encs fs (rows.get ⟨i, hi⟩) = some fv ∧
          m.probaOne fv = some probs ∧ pymax probs = some (cs.get ⟨i, hci⟩) ∧
          cs.get ⟨i, hci⟩ ∈ probs ∧ (∀ q ∈ probs, q ≤ cs.get ⟨i, hci⟩) ∧
          ((∀ q ∈ probs, 0 ≤ q ∧ q ≤ 1) →
            0 ≤ cs.get ⟨i, hci⟩ ∧ cs.get ⟨i, hci⟩ ≤ 1)) := by
  constructor
  · intro r p conf h
    rw [predict_single_eq_pipelineRow] at h
    obtain ⟨fv, probs, hp, _, h2, h3⟩ := pipelineRow_inv h
    have hmem := pymax_mem h3
    have hmax := pymax_is_max h3
    exact ⟨fv, probs, hp, h2, h3, hmem, hmax,
      fun hb => ⟨(hb conf hmem).1, (hb conf hmem).2⟩⟩
  · intro rows ps cs h i hi hci
    rw [predict_batch_char] at h
    cases hmo : mapOpt (pipelineRow m encs fs) rows with
    | none => rw [hmo] at h; simp at h
    | some pcs =>
      rw [hmo] at h
      simp only [Option.map_some'] at h
      have hlen : pcs.length = rows.length := mapOpt_length hmo
      have hip : i < pcs.length := by rw [hlen]; exact hi
      have hrow := mapOpt_get hmo i hi hip
      have hzip : pcs.unzip = (ps, cs) := by injection h
      have hcs : cs = pcs.map Prod.snd := by
        have h2 := congrArg Prod.snd hzip
        simpa [List.unzip_snd] using h2.symm
      have hcsget : cs.get ⟨i, hci⟩ = (pcs.get ⟨i, hip⟩).2 := by
        subst hcs
        simp [List.getElem_map]
      have hpair : pipelineRow m encs fs (rows.get ⟨i, hi⟩)
          = some ((pcs.get ⟨i, hip⟩).1, (pcs.get ⟨i, hip⟩).2) := by
        rw [hrow]
      obtain ⟨fv, probs, hp, _, h2, h3⟩ := pipelineRow_inv hpair
      rw [← hcsget] at h3
      have hmem := pymax_mem h3
      have hmax := pymax_is_max h3
      exact ⟨fv, probs, hp, h2, h3, hmem, hmax,
        fun hb => ⟨(hb _ hmem).1, (hb _ hmem).2⟩⟩

/-- Witness for C3: the single-prediction half applied to the concrete
classifier `m0` on `row0`, whose probability vector is [1/4, 3/4] and whose
returned confidence is 3/4. -/
theorem C3_confidence_is_max_witness :
    ∃ fv probs, preprocessRow ([] : List (String × Encoder)) ["x"] row0 = some fv ∧
      m0.probaOne fv = some probs ∧ pymax probs = some (3/4 : ℚ) ∧
      (3/4 : ℚ) ∈ probs ∧ (∀ q ∈ probs, q ≤ (3/4 : ℚ)) ∧
      ((∀ q ∈ probs, 0 ≤ q ∧ q ≤ 1) → 0 ≤ (3/4 : ℚ) ∧ (3/4 : ℚ) ≤ 1) :=
  (C3_confidence_is_max m0 [] ["x"]).1 row0 0 (3/4) (by
    rw [predict_single_eq_pipelineRow]
    have h : pipelineRow m0 [] ["x"] row0 = some (0, max (1/4 : ℚ) (3/4)) := rfl
    rw [h]
    norm_num)

/-- Claim C4: batch prediction is extensionally the exception-propagating map
of single prediction over the batch, in input order: whenever it succeeds the
(prediction, confidence) pairs agree row for row with sequential
single-prediction calls, and it fails exactly when some sequential call
fails. -/
theorem C4_batch_refines_single (m : Classifier) (encs : List (String × Encoder))
    (fs : List String) (rows : List Row) :
    predict_batch m (some encs) (some fs) rows
      = (mapOpt (predict_single m (some encs) (some fs)) rows).map List.unzip := by
  rw [predict_batch_char]
  refine congrArg _ (congrArg (fun g => mapOpt g rows) (funext fun r =>
    (predict_single_eq_pipelineRow m encs fs r).symm))

theorem mapOpt_mem_inv {f : α → Option β} {l : List α} {l' : List β}
    (h : mapOpt f l = some l') {b : β} (hb : b ∈ l') :
    ∃ a ∈ l, f a = some b := by
  induction l generalizing l' with
  | nil => simp [mapOpt] at h; subst h; simp at hb
  | cons a rest ih =>
    cases hf : f a with
    | none => simp [mapOpt, hf] at h
    | some c =>
      cases hr : mapOpt f rest with
      | none => simp [mapOpt, hf, hr] at h
      | some cs =>
        simp [mapOpt, hf, hr] at h
        subst h
        rcases List.mem_cons.mp hb with h1 | h1
        · exact ⟨a, List.mem_cons_self a rest, h1 ▸ hf⟩
        · obtain ⟨a', ha', hfa'⟩ := ih hr h1
          exact ⟨a', List.mem_cons_of_mem a ha', hfa'⟩

/-- Claim C5 (code-bug evidence): at batch size 0 the rate computations of
both front-ends divide by zero — `sum(predictions)/len(predictions)` has no
`total == 0` guard (src/web_app.py lines 363-365, src/gui/analytics_window.py
line 311) — so the embedded computations signal the division error (`none`)
instead of reporting an explicit no-data state. -/
theorem C5_empty_batch_divides_by_zero :
    summary_rates [] = none ∧ generate_insights_rate [] = none := by
  constructor <;> simp [summary_rates, generate_insights_rate, pyDiv]

/-- Counterexample to C6 as stated: the Low-confidence set can never overlap
the High-risk tier, because Low-confidence requires confidence < 0.6 while
High risk requires confidence > 0.7. -/
theorem C6_low_conf_never_high :
    ¬ ∃ (rows : List (Int × ℚ)) (x : Int × ℚ),
      x ∈ lowConfidence rows ∧ x ∈ highRisk rows := by
  rintro ⟨rows, x, hl, hh⟩
  have h1 : x.2 < 6/10 := by
    have h := List.mem_filter.mp hl
    simpa using h.2
  have h2 : (7 : ℚ)/10 < x.2 := by
    have h := List.mem_filter.mp hh
    simp only [Bool.and_eq_true, decide_eq_true_eq] at h
    exact h.2.2
  linarith

/-- Claim C6 (amended): the risk tiers partition the class-0 rows — every
class-0 row is in exactly one of High and Medium risk; the Low-confidence set
is independent of the predicted class (membership is exactly confidence <
0.6); it may overlap the Medium tier or fall outside both tiers, but can
never overlap the High tier. -/
theorem C6_risk_tiers (rows : List (Int × ℚ)) (x : Int × ℚ)
    (hx : x ∈ rows) (hc : x.1 = 0) :
    ((x ∈ highRisk rows ∧ x ∉ mediumRisk rows) ∨
      (x ∈ mediumRisk rows ∧ x ∉ highRisk rows)) ∧
    (∀ y : Int × ℚ, y ∈ lowConfidence rows ↔ y ∈ rows ∧ y.2 < 6/10) ∧
    (∀ y : Int × ℚ, y ∈ lowConfidence rows → y ∉ highRisk rows) ∧
    (∃ rs : List (Int × ℚ), ∃ y : Int × ℚ,
      y ∈ lowConfidence rs ∧ y ∈ mediumRisk rs) ∧
    (∃ rs : List (Int × ℚ), ∃ y : Int × ℚ,
      y ∈ lowConfidence rs ∧ y ∉ mediumRisk rs ∧ y ∉ highRisk rs) := by
  refine ⟨?_, ?_, ?_, ?_, ?_⟩
  · rcases le_or_lt x.2 (7/10) with h | h
    · refine Or.inr ⟨List.mem_filter.mpr ⟨hx, by simp [hc, h]⟩, fun hh => ?_⟩
      have h2 := List.mem_filter.mp hh
      simp only [Bool.and_eq_true, decide_eq_true_eq] at h2
      exact absurd h2.2.2 (not_lt.mpr h)
    · refine Or.inl ⟨List.mem_filter.mpr ⟨hx, by simp [hc, h]⟩, fun hm => ?_⟩
      have h2 := List.mem_filter.mp hm
      simp only [Bool.and_eq_true, decide_eq_true_eq] at h2
      exact absurd h2.2.2 (not_le.mpr h)
  · intro y
    constructor
    · intro hy
      have h := List.mem_filter.mp hy
      exact ⟨h.1, by simpa using h.2⟩
    · intro ⟨hy, hlt⟩
      exact List.mem_filter.mpr ⟨hy, by simpa using hlt⟩
  · intro y hy hh
    have h1 : y.2 < 6/10 := by
      have h := List.mem_filter.mp hy
      simpa using h.2
    have h2 : (7 : ℚ)/10 < y.2 := by
      have h := List.mem_filter.mp hh
      simp only [Bool.and_eq_true, decide_eq_true_eq] at h
      exact h.2.2
    linarith
  · refine ⟨[(0, 1/2)], (0, 1/2), ?_, ?_⟩
    · refine List.mem_filter.mpr ⟨by simp, ?_⟩
      norm_num
    · refine List.mem_filter.mpr ⟨by simp, ?_⟩
      norm_num
  · refine ⟨[(1, 1/2)], (1, 1/2), ?_, ?_, ?_⟩
    · refine List.mem_filter.mpr ⟨by simp, ?_⟩
      norm_num
    · intro hm
      have h := List.mem_filter.mp hm
      simp at h
    · intro hh
      have h := List.mem_filter.mp hh
      simp at h

/-- Witness for C6: the amended theorem applied to the one-row batch
[(0, 1/2)]. -/
theorem C6_risk_tiers_witness :
    (((0, (1:ℚ)/2) ∈ highRisk [(0, 1/2)] ∧ (0, (1:ℚ)/2) ∉ mediumRisk [(0, 1/2)]) ∨
      ((0, (1:ℚ)/2) ∈ mediumRisk [(0, 1/2)] ∧ (0, (1:ℚ)/2) ∉ highRisk [(0, 1/2)])) ∧
    (∀ y : Int × ℚ, y ∈ lowConfidence [(0, 1/2)] ↔ y ∈ [((0:Int), (1:ℚ)/2)] ∧ y.2 < 6/10) ∧
    (∀ y : Int × ℚ, y ∈ lowConfidence [(0, 1/2)] → y ∉ highRisk [(0, 1/2)]) ∧
    (∃ rs : List (Int × ℚ), ∃ y : Int × ℚ,
      y ∈ lowConfidence rs ∧ y ∈ mediumRisk rs) ∧
    (∃ rs : List (Int × ℚ), ∃ y : Int × ℚ,
      y ∈ lowConfidence rs ∧ y ∉ mediumRisk rs ∧ y ∉ highRisk rs) :=
  C6_risk_tiers [(0, 1/2)] (0, 1/2) (by simp) rfl

/-- Counterexample to C7 as stated: with loaded but empty encoders and empty
feature list, preprocessing does not fail with any load error — it succeeds
and returns an empty-schema vector for the row. -/
theorem C7_empty_schema_no_error :
    preprocess_data (some []) (some []) [[("age", Value.int 17)]]
      = some [[]] := rfl

/-- Claim C7 (amended): when `label_encoders` or `feature_names` is
unavailable (None, artifacts not loaded) preprocessing raises and yields no
output at all — no partially processed batch escapes; but when the artifacts
are loaded and merely empty, preprocessing does not fail: it maps every row
to the empty feature vector. -/
theorem C7_missing_schema :
    (∀ (le : Option (List (String × Encoder))) (fn : Option (List String))
      (rows : List Row),
      le = none ∨ fn = none → preprocess_data le fn rows = none) ∧
    (∀ rows : List Row,
      preprocess_data (some []) (some []) rows = some (rows.map fun _ => [])) := by
  constructor
  · rintro le fn rows (h | h)
    · subst h; rfl
    · subst h
      cases le with
      | none => rfl
      | some encs =>
        cases hm : mapOpt (encodeRow encs) rows <;> simp [preprocess_data, hm]
  · intro rows
    rw [preprocess_data_loaded]
    exact mapOpt_of_forall_some (fun r => rfl)

/-- Witness for C7: the amended theorem applied to a handler with missing
encoders, and to empty loaded artifacts on a one-row batch. -/
theorem C7_missing_schema_witness :
    preprocess_data none (some []) [rowW] = none ∧
    preprocess_data (some []) (some []) [rowW] = some ([rowW].map fun _ => []) :=
  ⟨C7_missing_schema.1 none (some []) [rowW] (Or.inl rfl),
    C7_missing_schema.2 [rowW]⟩

/-- Counterexample to C8 as stated: two batches whose offending rows sit at
different indices surface the very same error value, so the surfaced error
identifies no offending row index (no PredictionError type exists; the
generic handler at src/web_app.py lines 494-495 reports only the exception
text). -/
theorem C8_no_row_index :
    predict_batch m1 (some []) (some ["x"]) [rowBad, row0] = none ∧
    predict_batch m1 (some []) (some ["x"]) [row0, rowBad] = none :=
  ⟨rfl, rfl⟩

/-- Claim C8 (amended): if the classifier raises on any preprocessed vector
of the batch, the whole batch prediction propagates the failure and yields no
result — no default prediction is substituted and no row is silently
skipped — though the surfaced error carries no row index. -/
theorem C8_classifier_error_propagates (m : Classifier)
    (encs : List (String × Encoder)) (fs : List String) (rows : List Row)
    (fvs : List Row) (fv : Row)
    (hpre : mapOpt (preprocessRow encs fs) rows = some fvs)
    (hmem : fv ∈ fvs) (hrej : m.predictOne fv = none) :
    predict_batch m (some encs) (some fs) rows = none := by
  rw [predict_batch_char]
  obtain ⟨r, hr, hfr⟩ := mapOpt_mem_inv hpre hmem
  have hrow : pipelineRow m encs fs r = none := by
    unfold pipelineRow
    rw [hfr]
    simp [hrej]
  rw [mapOpt_none_of_mem hr hrow]
  rfl

/-- Witness for C8: the amended theorem applied to the rejecting classifier
`m1` on the batch [rowBad, row0], whose first preprocessed vector `m1`
rejects. -/
theorem C8_classifier_error_propagates_witness :
    predict_batch m1 (some []) (some ["x"]) [row0, rowBad] = none :=
  C8_classifier_error_propagates m1 [] ["x"] [row0, rowBad]
    [[("x", Value.int 1)], [("x", Value.int 7)]] [("x", Value.int 7)]
    (by decide) (by simp) (by decide)

/-- Claim C9: for every predicted class the recommendation rules are
evaluated independently and every applicable rule emits its string. For
class 0: study-time (studytime < 3), tutoring (failures > 0), attendance
(absences > 10), school-support (schoolsup == no) and family-engagement
(famsup == no) each fire exactly when their condition holds, and when zero
rules fire exactly the one generic fallback recommendation is returned. For
every other predicted class: the three unconditional recommendations always
fire, the higher-education rule fires exactly when higher == yes, and the
output is exactly the applicable rules in source order (so the fallback
never fires there). -/
theorem C9_rules_fire_independently (p : Int) (sd : Row) (st fl ab : Int)
    (hst : dictGet sd "studytime" (Value.int 0) = Value.int st)
    (hfl : dictGet sd "failures" (Value.int 0) = Value.int fl)
    (hab : dictGet sd "absences" (Value.int 0) = Value.int ab) :
    ∃ recs, WebApp.get_recommendations p sd = some recs ∧
      (p = 0 →
        (recStudy ∈ recs ↔ st < 3) ∧
        (recTutor ∈ recs ↔ 0 < fl) ∧
        (recAttend ∈ recs ↔ 10 < ab) ∧
        (recSchoolSup ∈ recs ↔ dictGet sd "schoolsup" (Value.str "") = Value.str "no") ∧
        (recFamSup ∈ recs ↔ dictGet sd "famsup" (Value.str "") = Value.str "no") ∧
        (¬ st < 3 → ¬ 0 < fl → ¬ 10 < ab →
          dictGet sd "schoolsup" (Value.str "") ≠ Value.str "no" →
          dictGet sd "famsup" (Value.str "") ≠ Value.str "no" →
          recs = [recFallback])) ∧
      (p ≠ 0 →
        recKeepHabits ∈ recs ∧ recLeadership ∈ recs ∧ recBalance ∈ recs ∧
        (recHigherEd ∈ recs ↔ dictGet sd "higher" (Value.str "") = Value.str "yes") ∧
        recs = [recKeepHabits, recLeadership] ++
          (if dictGet sd "higher" (Value.str "") = Value.str "yes"
            then [recHigherEd] else []) ++ [recBalance]) := by
  by_cases hp : p = 0
  · subst hp
    unfold WebApp.get_recommendations
    rw [hst, hfl, hab]
    by_cases h1 : st < 3 <;> by_cases h2 : (0:Int) < fl <;> by_cases h3 : (10:Int) < ab <;>
      by_cases h4 : dictGet sd "schoolsup" (Value.str "") = Value.str "no" <;>
      by_cases h5 : dictGet sd "famsup" (Value.str "") = Value.str "no" <;>
      simp [pyLtInt, pyGtInt, h1, h2, h3, h4, h5,
        recStudy, recTutor, recAttend, recSchoolSup, recFamSup, recFallback]
  · unfold WebApp.get_recommendations
    by_cases h6 : dictGet sd "higher" (Value.str "") = Value.str "yes" <;>
      simp [hp, h6, recKeepHabits, recLeadership, recHigherEd, recBalance,
        recFallback]

/-- Witness for C9: the theorem applied at class 0 to the concrete record
`sdW` (studytime 2, famsup "no", everything else defaulted) and at class 1
to the concrete record `sdW1` (higher "yes"). -/
theorem C9_rules_fire_independently_witness :
    (∃ recs, WebApp.get_recommendations 0 sdW = some recs ∧
      ((0:Int) = 0 →
        (recStudy ∈ recs ↔ (2:Int) < 3) ∧
        (recTutor ∈ recs ↔ (0:Int) < 0) ∧
        (recAttend ∈ recs ↔ (10:Int) < 0) ∧
        (recSchoolSup ∈ recs ↔ dictGet sdW "schoolsup" (Value.str "") = Value.str "no") ∧
        (recFamSup ∈ recs ↔ dictGet sdW "famsup" (Value.str "") = Value.str "no") ∧
        (¬ (2:Int) < 3 → ¬ (0:Int) < 0 → ¬ (10:Int) < 0 →
          dictGet sdW "schoolsup" (Value.str "") ≠ Value.str "no" →
          dictGet sdW "famsup" (Value.str "") ≠ Value.str "no" →
          recs = [recFallback])) ∧
      ((0:Int) ≠ 0 →
        recKeepHabits ∈ recs ∧ recLeadership ∈ recs ∧ recBalance ∈ recs ∧
        (recHigherEd ∈ recs ↔ dictGet sdW "higher" (Value.str "") = Value.str "yes") ∧
        recs = [recKeepHabits, recLeadership] ++
          (if dictGet sdW "higher" (Value.str "") = Value.str "yes"
            then [recHigherEd] else []) ++ [recBalance])) ∧
    (∃ recs, WebApp.get_recommendations 1 sdW1 = some recs ∧
      ((1:Int) = 0 →
        (recStudy ∈ recs ↔ (0:Int) < 3) ∧
        (recTutor ∈ recs ↔ (0:Int) < 0) ∧
        (recAttend ∈ recs ↔ (10:Int) < 0) ∧
        (recSchoolSup ∈ recs ↔ dictGet sdW1 "schoolsup" (Value.str "") = Value.str "no") ∧
        (recFamSup ∈ recs ↔ dictGet sdW1 "famsup" (Value.str "") = Value.str "no") ∧
        (¬ (0:Int) < 3 → ¬ (0:Int) < 0 → ¬ (10:Int) < 0 →
          dictGet sdW1 "schoolsup" (Value.str "") ≠ Value.str "no" →
          dictGet sdW1 "famsup" (Value.str "") ≠ Value.str "no" →
          recs = [recFallback])) ∧
      ((1:Int) ≠ 0 →
        recKeepHabits ∈ recs ∧ recLeadership ∈ recs ∧ recBalance ∈ recs ∧
        (recHigherEd ∈ recs ↔ dictGet sdW1 "higher" (Value.str "") = Value.str "yes") ∧
        recs = [recKeepHabits, recLeadership] ++
          (if dictGet sdW1 "higher" (Value.str "") = Value.str "yes"
            then [recHigherEd] else []) ++ [recBalance])) :=
  ⟨C9_rules_fire_independently 0 sdW 2 0 0 rfl rfl rfl,
    C9_rules_fire_independently 1 sdW1 0 0 0 rfl rfl rfl⟩

/-- Claim C10: the desktop front-end's recommendation generator and the web
front-end's recommendation generator are extensionally equal — for every
(predicted class, student record) pair they return the same ordered sequence
of recommendation strings. -/
theorem C10_frontends_agree (prediction : Int) (student_data : Row) :
    PredictionWindow.get_recommendations prediction student_data
      = WebApp.get_recommendations prediction student_data := rfl
